import Mathlib

/-!
Verification development for the `statute-patterns` repository: a shallow
embedding of its pattern-matching and normalization engine.

Strings are modelled as `List Char` (`Str`).  Python's `re` module, as used by
the code (`re.compile(..., re.X)`, `finditer`, `search`, `fullmatch`,
`re.split`), is embedded by a small backtracking matcher over a regex AST
(`Regex`, `mrun`).  The regex ASTs below are transcriptions of the exact regex
strings the source assembles (`statute_patterns/components/utils.py`,
`statute_patterns/serials.py`, `statute_patterns/models.py`); the `re.X` flag
only makes the cosmetic layout whitespace of those f-strings insignificant, so
it does not appear in the AST.  Case mapping (`str.lower`, `str.upper`) is
modelled per character on ASCII, which covers every string the code
manipulates.
-/

namespace StatutePatterns

/-- Strings of the embedded program: lists of characters. -/
abbrev Str := List Char

/-- Conversion from Lean string literals. -/
def S (s : String) : Str := s.toList

/-- Python `str.lower`, per character (ASCII). -/
def pyLower (s : Str) : Str := s.map Char.toLower

/-- Python `str.upper`, per character (ASCII). -/
def pyUpper (s : Str) : Str := s.map Char.toUpper

/-- Python's `\s` class / `str.strip` whitespace: space, tab, newline,
carriage return, vertical tab, form feed. -/
def isPySpace (c : Char) : Bool :=
  c = ' ' || c = '\t' || c = '\n' || c = '\r' || c = '\x0b' || c = '\x0c'

/-- Python's `\w` class on ASCII: letters, digits, underscore (used by the
word-boundary assertion `\b`). -/
def isWordChar (c : Char) : Bool :=
  c.isAlphanum || c = '_'

/-- Python `str.strip()`: drop leading and trailing whitespace. -/
def pyStrip (s : Str) : Str :=
  ((s.dropWhile isPySpace).reverse.dropWhile isPySpace).reverse

/-- Python `str.isdigit()` restricted to ASCII: nonempty and all digits. -/
def pyIsDigit (s : Str) : Bool :=
  !s.isEmpty && s.all Char.isDigit

/-- Python `int()` on a digit string: its decimal value. -/
def decimalVal (s : Str) : Nat :=
  s.foldl (fun n c => 10 * n + (c.toNat - ('0').toNat)) 0

/-- Regex abstract syntax, covering exactly the constructs the source's
patterns use.  `nlb w r` is the fixed-width negative lookbehind `(?<!r)`
(Python computes the width `w` of `r`; it is supplied explicitly here).
Capturing groups have no constructor: a plain group `(r)` matches exactly as
`r` does, and the one place group identity matters — dispatch on
`match.lastgroup` — is modelled at the collection level (see `findIter`),
because the group that closes last in a match of `(?P<g1>...)|(?P<g2>...)` is
always the named group of the alternative that matched. -/
inductive Regex where
  | nul
  | eps
  | lit (c : Char)
  | cls (p : Char → Bool)
  | cat (a b : Regex)
  | alt (a b : Regex)
  | star (r : Regex)
  | wb
  | nlb (w : Nat) (r : Regex)

/-- Backtracking matcher, continuation style; Python `re` semantics: ordered
alternation, greedy `*`, a `*` iteration must consume input.  `before` is the
reversed already-consumed text (context for `\b` and lookbehind), `after` the
rest.  The continuation receives the state after `r`; the first success in
backtracking order is returned, so with the always-succeeding continuation the
result is the preferred (leftmost-greedy) match.  `fuel` decreases at every
recursive call so the kernel can evaluate the function; any fuel at least
`(size of r + length of input + 2)^2` is enough for the patterns here, and all
entry points below supply it. -/
def mrun : Nat → Regex → Str → Str → (Str → Str → Option (Str × Str)) →
    Option (Str × Str)
  | 0, _, _, _, _ => none
  | _ + 1, .nul, _, _, _ => none
  | _ + 1, .eps, b, a, k => k b a
  | _ + 1, .lit c, b, a, k =>
    match a with
    | [] => none
    | x :: rest => if x = c then k (x :: b) rest else none
  | _ + 1, .cls p, b, a, k =>
    match a with
    | [] => none
    | x :: rest => if p x then k (x :: b) rest else none
  | f + 1, .cat r₁ r₂, b, a, k =>
    mrun f r₁ b a (fun b' a' => mrun f r₂ b' a' k)
  | f + 1, .alt r₁ r₂, b, a, k =>
    match mrun f r₁ b a k with
    | some v => some v
    | none => mrun f r₂ b a k
  | f + 1, .star r, b, a, k =>
    match mrun f r b a (fun b' a' =>
        if a'.length < a.length then mrun f (.star r) b' a' k else none) with
    | some v => some v
    | none => k b a
  | _ + 1, .wb, b, a, k =>
    let prevW := match b with | [] => false | c :: _ => isWordChar c
    let nextW := match a with | [] => false | c :: _ => isWordChar c
    if prevW ≠ nextW then k b a else none
  | f + 1, .nlb w r, b, a, k =>
    if b.length < w then k b a
    else
      match mrun f r [] (b.take w).reverse
          (fun b2 a2 => if a2.isEmpty then some (b2, a2) else none) with
      | some _ => none
      | none => k b a

/-- Fuel that is ample for every concrete run in this file. -/
def fuelFor (s : Str) : Nat := (200 + s.length) * (200 + s.length)

/-- Python `pattern.fullmatch(s)`: does `r` match all of `s`?  Backtracking
makes this "some parse covers the whole string", as in Python. -/
def fullmatchB (r : Regex) (s : Str) : Bool :=
  (mrun (fuelFor s) r [] s
    (fun b a => if a.isEmpty then some (b, a) else none)).isSome

/-- Match `r` at the position `(before, after)` and return the matched text
(the preferred match, as `m.group(0)` would give). -/
def matchHere (r : Regex) (before after : Str) : Option Str :=
  match mrun (fuelFor (before ++ after)) r before after (fun b a => some (b, a)) with
  | some (_, a') => some (after.take (after.length - a'.length))
  | none => none

/-- Python `pattern.search(s).group(0)`: the leftmost match of `r` in `s`,
scanning positions left to right. -/
def search (r : Regex) (s : Str) : Option Str :=
  go s.length [] s
where
  go : Nat → Str → Str → Option Str
    | _, before, [] =>
      match matchHere r before [] with
      | some m => some m
      | none => none
    | 0, _, _ => none
    | fuel + 1, before, c :: rest =>
      match matchHere r before (c :: rest) with
      | some m => some m
      | none => go fuel (c :: before) rest

/-- Python `pattern.finditer(text)` over a combined alternation
`(?P<g1>r1)|(?P<g2>r2)|...`: non-overlapping matches, leftmost position first,
alternatives tried in order at each position; after a match the scan resumes
at its end (one past it when it was empty).  Each match is reported as
`(group name of the matched alternative, matched text)` — exactly the data the
source reads off a match via `m.lastgroup` and `m.group(0)`. -/
def findIter (alts : List (Str × Regex)) (text : Str) : List (Str × Str) :=
  go (text.length + 1) [] text
where
  tryAlts : List (Str × Regex) → Str → Str → Option (Str × Str)
    | [], _, _ => none
    | (name, r) :: rest, before, after =>
      match matchHere r before after with
      | some m => some (name, m)
      | none => tryAlts rest before after
  go : Nat → Str → Str → List (Str × Str)
    | 0, _, _ => []
    | fuel + 1, before, after =>
      match tryAlts alts before after with
      | some (name, m) =>
        if m.length = 0 then
          match after with
          | [] => [(name, m)]
          | c :: rest => (name, m) :: go fuel (c :: before) rest
        else
          (name, m) :: go fuel ((after.take m.length).reverse ++ before)
            (after.drop m.length)
      | none =>
        match after with
        | [] => []
        | c :: rest => go fuel (c :: before) rest

/-- Literal string as a regex. -/
def rxStr (s : Str) : Regex :=
  s.foldr (fun c r => .cat (.lit c) r) .eps

/-- Ordered alternation of a list of regexes (the `"|".join(...)` of the
source). -/
def rxAlts (l : List Regex) : Regex :=
  match l with
  | [] => .nul
  | r :: rest => rest.foldl (fun acc x => .alt acc x) r

/-- Greedy `r?`. -/
def rxOpt (r : Regex) : Regex := .alt r .eps

/-- Greedy `r+`. -/
def rxPlus (r : Regex) : Regex := .cat r (.star r)

/-- Exactly `n` copies of `r`. -/
def rxRep (r : Regex) : Nat → Regex
  | 0 => .eps
  | n + 1 => .cat r (rxRep r n)

/-- Greedy `r{0,n}` (prefer more copies). -/
def rxUpTo (r : Regex) : Nat → Regex
  | 0 => .eps
  | n + 1 => rxOpt (.cat r (rxUpTo r n))

/-- Greedy counted repetition `r{lo,hi}`. -/
def rxRange (r : Regex) (lo hi : Nat) : Regex :=
  .cat (rxRep r lo) (rxUpTo r (hi - lo))

/-- The `\d` class (ASCII). -/
def rxDigit : Regex := .cls Char.isDigit

/-- The `\s` class. -/
def rxWs : Regex := .cls isPySpace

/-- The closed 16-member taxonomy `StatuteSerialCategory` of
`statute_patterns/components/category.py`. -/
inductive StatuteSerialCategory where
  | RepublicAct
  | CommonwealthAct
  | Act
  | Constitution
  | Spain
  | BatasPambansa
  | PresidentialDecree
  | ExecutiveOrder
  | LetterOfInstruction
  | VetoMessage
  | RulesOfCourt
  | BarMatter
  | AdministrativeMatter
  | ResolutionEnBanc
  | CircularOCA
  | CircularSC
deriving DecidableEq

namespace StatuteSerialCategory

/-- Each member's enum value (its short machine code). -/
def value : StatuteSerialCategory → Str
  | RepublicAct => S ("ra")
  | CommonwealthAct => S ("ca")
  | Act => S ("act")
  | Constitution => S ("const")
  | Spain => S ("spain")
  | BatasPambansa => S ("bp")
  | PresidentialDecree => S ("pd")
  | ExecutiveOrder => S ("eo")
  | LetterOfInstruction => S ("loi")
  | VetoMessage => S ("veto")
  | RulesOfCourt => S ("roc")
  | BarMatter => S ("rule_bm")
  | AdministrativeMatter => S ("rule_am")
  | ResolutionEnBanc => S ("rule_reso")
  | CircularOCA => S ("oca_cir")
  | CircularSC => S ("sc_cir")

/-- Each member's Python name (`cat.name`, used by `uncamel`). -/
def pyName : StatuteSerialCategory → Str
  | RepublicAct => S ("RepublicAct")
  | CommonwealthAct => S ("CommonwealthAct")
  | Act => S ("Act")
  | Constitution => S ("Constitution")
  | Spain => S ("Spain")
  | BatasPambansa => S ("BatasPambansa")
  | PresidentialDecree => S ("PresidentialDecree")
  | ExecutiveOrder => S ("ExecutiveOrder")
  | LetterOfInstruction => S ("LetterOfInstruction")
  | VetoMessage => S ("VetoMessage")
  | RulesOfCourt => S ("RulesOfCourt")
  | BarMatter => S ("BarMatter")
  | AdministrativeMatter => S ("AdministrativeMatter")
  | ResolutionEnBanc => S ("ResolutionEnBanc")
  | CircularOCA => S ("CircularOCA")
  | CircularSC => S ("CircularSC")

/-- The list of all members, in declaration order. -/
def members : List StatuteSerialCategory :=
  [RepublicAct, CommonwealthAct, Act, Constitution, Spain, BatasPambansa,
   PresidentialDecree, ExecutiveOrder, LetterOfInstruction, VetoMessage,
   RulesOfCourt, BarMatter, AdministrativeMatter, ResolutionEnBanc,
   CircularOCA, CircularSC]

/-- Python `StatuteSerialCategory(v)`: look a member up by value; a miss is a
`ValueError` (`none`). -/
def ofValue (v : Str) : Option StatuteSerialCategory :=
  members.find? (fun c => c.value = v)

end StatuteSerialCategory

/-- Helpers chars for the ASCII classes `[a-z]`, `[A-Z]` of `uncamel`. -/
def isAsciiLower (c : Char) : Bool := 'a' ≤ c && c ≤ 'z'

/-- ASCII upper-case test. -/
def isAsciiUpper (c : Char) : Bool := 'A' ≤ c && c ≤ 'Z'

/-- Inner scan of `uncamel`: `prev` is the character before the current one
(none at the start of the string). -/
def uncamelGo : Option Char → Str → Str
  | _, [] => []
  | prev, c :: rest =>
    let prevLower := match prev with | some p => isAsciiLower p | none => false
    let nextLower := match rest with | n :: _ => isAsciiLower n | [] => false
    let boundary :=
      isAsciiUpper c && (prevLower || (prev.isSome && nextLower))
    (if boundary then [' ', c] else [c]) ++ uncamelGo (some c) rest

/-- The `uncamel` helper of `StatuteSerialCategory.serialize`:
`re.sub(r"((?<=[a-z])[A-Z]|(?<!\A)[A-Z](?=[a-z]))", r" \1", cat.name)` —
a space is inserted before every upper-case letter that follows a lower-case
letter, or is internal and followed by a lower-case letter (each match of the
substitution is a single character, so the scan is character by character). -/
def uncamel (cat : StatuteSerialCategory) : Str :=
  uncamelGo none cat.pyName

/-- Result of `StatuteSerialCategory.serialize`: a title, a raised
`SyntaxWarning` (the code's formatting error,
`raise SyntaxWarning(f"{idx=} invalid serial of {self}")` — the embedding
keeps the offending `idx` as the error payload), or Python's implicit `None`
(the fall-through of the `BatasPambansa` arm on a non-digit id). -/
inductive SerializeResult where
  | title (s : Str)
  | invalid (offending : Str)
  | nothing
deriving DecidableEq

/-- Python `str.title()` as used on the one-word ids `civil` / `penal`:
capitalize the first letter, lower the rest. -/
def pyTitleWord (s : Str) : Str :=
  match s with
  | [] => []
  | c :: rest => c.toUpper :: rest.map Char.toLower

/-- Python's substring test `sub in s`. -/
def pyContains (sub : Str) : Str → Bool
  | [] => sub.isEmpty
  | c :: rest => sub.isPrefixOf (c :: rest) || pyContains sub rest

/-- Search of `r"^.*-sc(?=-\d+)"` in the `AdministrativeMatter` arm of
`serialize`.  Python semantics: the match is anchored at the start; `.*` is
greedy and cannot cross a newline; `(?=-\d+)` requires a hyphen and a digit
right after the matched prefix.  So the result is `s.take (k + 3)` for the
largest `k` not beyond the first newline with `-sc` at position `k` followed
by `-` and a digit; `none` when no such `k` exists.  `scVariantOk` is that
per-position test and `scVariantGo` descends from the largest candidate. -/
def scVariantOk (s : Str) (k : Nat) : Bool :=
  match s.drop k with
  | a :: b :: c :: d :: e :: _ =>
    a = '-' && b = 's' && c = 'c' && d = '-' && e.isDigit
  | _ => false

/-- Descending scan for `scVariantSearch`, from candidate position `k`
downwards. -/
def scVariantGo (s : Str) : Nat → Option Str
  | 0 => if scVariantOk s 0 then some (s.take 3) else none
  | k + 1 =>
    if scVariantOk s (k + 1) then some (s.take (k + 1 + 3))
    else scVariantGo s k

/-- Model of `re.search(r"^.*-sc(?=-\d+)", small_idx)` (returning the matched
text, `sans_var.group()`). -/
def scVariantSearch (s : Str) : Option Str :=
  scVariantGo s (s.takeWhile (fun c => c ≠ '\n')).length

/-- Transcription of `StatuteSerialCategory.serialize` from
`statute_patterns/components/category.py` (the current revision of the
module; the older `resources.py` revision differs in the `RulesOfCourt` arm).
Arms appear in source order; a `raise SyntaxWarning` is `.invalid`, the
missing return of the `BatasPambansa` arm on a non-digit id is `.nothing`. -/
def serialize (self : StatuteSerialCategory) (idx : Str) : SerializeResult :=
  match self with
  | .Spain =>
    let small_idx := pyLower idx
    if small_idx = S ("civil") || small_idx = S ("penal") then
      .title (S ("Spanish ") ++ pyTitleWord idx ++ S (" Code"))
    else if small_idx = S ("commerce") then
      .title (S ("Code of Commerce"))
    else .invalid idx
  | .Constitution =>
    if pyIsDigit idx &&
        (decimalVal idx = 1935 || decimalVal idx = 1973 || decimalVal idx = 1987) then
      .title (idx ++ S (" Constitution"))
    else .invalid idx
  | .RulesOfCourt =>
    if idx = S ("1940") || idx = S ("1964") then
      .title (idx ++ S (" Rules of Court"))
    else if idx = S ("cpr") then
      .title (S ("Code of Professional Responsibility"))
    else .invalid idx
  | .VetoMessage => .title (S ("Veto Message - ") ++ idx)
  | .ResolutionEnBanc =>
    .title (S ("Resolution of the Court En Banc dated ") ++ idx)
  | .CircularSC => .title (S ("SC Circular No. ") ++ idx)
  | .CircularOCA => .title (S ("OCA Circular No. ") ++ idx)
  | .AdministrativeMatter =>
    let am := uncamel self
    let small_idx := pyLower idx
    if pyContains (S ("sc")) small_idx then
      if (S ("sc")).isSuffixOf small_idx then
        .title (am ++ S (" No. ") ++ pyUpper small_idx)
      else
        match scVariantSearch small_idx with
        | some sans_var => .title (am ++ S (" No. ") ++ pyUpper sans_var)
        | none => .title (am ++ S (" No. ") ++ pyUpper small_idx)
    else .title (am ++ S (" No. ") ++ pyUpper small_idx)
  | .BatasPambansa =>
    if pyIsDigit idx then .title (uncamel self ++ S (" Blg. ") ++ idx)
    else .nothing
  | _ =>
    let target_digit := if pyIsDigit idx then idx else pyUpper idx
    .title (uncamel self ++ S (" No. ") ++ target_digit)

/-- The `Rule` value type (`statute_patterns/components/rule.py`): a category
and a lower-cased serial id.  Pydantic equality and hashing are by field
values; structural equality of this Lean structure models both. -/
structure Rule where
  cat : StatuteSerialCategory
  id : Str
deriving DecidableEq

/-- Rule construction from raw strings, as pydantic runs the two `mode="before"`
validators: `cat` is looked up as `StatuteSerialCategory(v.lower())` (a miss
raises, failing construction), `id` is lower-cased. -/
def mkRule (cat id : Str) : Option Rule :=
  (StatuteSerialCategory.ofValue (pyLower cat)).map (fun c => ⟨c, pyLower id⟩)

/-- Rule construction as the extraction pipeline performs it: the category is
already an enum member, the id text is lower-cased by the `id` validator. -/
def mkRuleOfCat (cat : StatuteSerialCategory) (id : Str) : Rule :=
  ⟨cat, pyLower id⟩

/-- The hash input of `Rule.__hash__`:
`hash((type(self),) + tuple(self.__dict__.values()))` — the tuple of the two
normalized field values (the `type(self)` component is the same for all
Rules).  Two Rules with equal fields therefore hash identically. -/
def ruleHashInput (r : Rule) : Str × Str := (r.cat.value, r.id)

/-- One separator match of the compiled `SEPARATOR` pattern
`re.compile("|".join([",", r"\s+", r"(\sand\s)"]))` at the head of `s`:
`(the rest after the separator, the one group's capture)`.  Alternatives are
tried in order; a comma consumes one character, `\s+` consumes the maximal
whitespace run; `\s+` matches whenever `(\sand\s)` would (both need a leading
`\s`), so the capturing third alternative never participates and the capture
is always `none`. -/
def sepMatch (s : Str) : Option (Str × Option Str) :=
  match s with
  | [] => none
  | c :: rest =>
    if c = ',' then some (rest, none)
    else if isPySpace c then some (rest.dropWhile isPySpace, none)
    else none

/-- Python `re.split(SEPARATOR, text)`: pieces of text between separator
matches, with the group capture of each separator inserted between them
(always `none` here, see `sepMatch`).  `acc` is the reversed current piece. -/
def pySplit : Nat → Str → Str → List (Option Str)
  | _, acc, [] => [some acc.reverse]
  | 0, acc, s => [some (acc.reverse ++ s)]
  | fuel + 1, acc, c :: rest =>
    match sepMatch (c :: rest) with
    | some (rem, cap) => some acc.reverse :: cap :: pySplit fuel [] rem
    | none => pySplit fuel (c :: acc) rest

/-- The filter-and-strip of `digit_splitter` on one `re.split` piece: keep
`a` when `a` is truthy (not `None`, not empty), `a.strip()` is truthy and
`a != "and"`, and yield `a.strip()`. -/
def pieceKeep (a : Option Str) : Option Str :=
  match a with
  | none => none
  | some piece =>
    if !piece.isEmpty && !(pyStrip piece).isEmpty && piece ≠ S ("and") then
      some (pyStrip piece)
    else none

/-- Transcription of `digit_splitter` (`statute_patterns/components/utils.py`):
split on `SEPARATOR` and keep the pieces `pieceKeep` keeps. -/
def digit_splitter (text : Str) : List Str :=
  (pySplit (text.length + 1) [] text).filterMap pieceKeep

/-- Optional literal dot `\.?`. -/
def dotOpt : Regex := rxOpt (.lit '.')

/-- The `ltr(*args)` helper (`statute_patterns/components/utils.py`):
`(?:\b{joined}\.?)` with the argument letters joined by `\.?\s*`. -/
def ltrJoin : List Str → Regex
  | [] => .eps
  | [a] => rxStr a
  | a :: rest => .cat (rxStr a) (.cat dotOpt (.cat (.star rxWs) (ltrJoin rest)))

/-- The `ltr` regex builder itself. -/
def ltr (args : List Str) : Regex :=
  .cat .wb (.cat (ltrJoin args) dotOpt)

/-- The `add_num(prefix)` helper: `{prefix}(\s+No\.?s?\.?)?`. -/
def add_num (p : Regex) : Regex :=
  .cat p (rxOpt (.cat (rxPlus rxWs)
    (.cat (rxStr (S ("No"))) (.cat dotOpt (.cat (rxOpt (.lit 's')) dotOpt)))))

/-- The `add_blg(prefix)` helper: `{prefix}(\s+Blg\.?)?`. -/
def add_blg (p : Regex) : Regex :=
  .cat p (rxOpt (.cat (rxPlus rxWs) (.cat (rxStr (S ("Blg"))) dotOpt)))

/-- The `set_digit()` fragment `\d{1,6}(:?[-–]?[AB]?)?` (note the source's
`(:?` — a capturing group of an optional colon, an optional hyphen or
en-dash, and an optional `A`/`B`). -/
def set_digit : Regex :=
  .cat (rxRange rxDigit 1 6)
    (rxOpt (.cat (rxOpt (.lit ':'))
      (.cat (rxOpt (.cls (fun c => c = '-' || c = '–')))
        (rxOpt (.cls (fun c => c = 'A' || c = 'B'))))))

/-- The `set_digits()` fragment
`(?:(?:{x}[,\s]+)*(?:and\s+)?{x})` with `x = set_digit()`. -/
def set_digits : Regex :=
  .cat (.star (.cat set_digit (rxPlus (.cls (fun c => c = ',' || isPySpace c)))))
    (.cat (rxOpt (.cat (rxStr (S ("and"))) (rxPlus rxWs))) set_digit)

/-- The `NON_ACT_INDICATORS` list, each paired with the fixed width Python
computes for the lookbehind `(?<!{x}\s)` (pattern length in characters, the
trailing `\s` included; `Rep\.` is the four characters `Rep.`). -/
def NON_ACT_INDICATORS : List (Str × Nat) :=
  [(S ("An"), 3), (S ("AN"), 3), (S ("Republic"), 9), (S ("Rep"), 4),
   (S ("Rep."), 5), (S ("REPUBLIC"), 9), (S ("Commonwealth"), 13),
   (S ("COMMONWEALTH"), 13)]

/-- The `not_prefixed_by_any(regex, lookbehinds)` helper: every negative
lookbehind `(?<!{x}\s)` prepended in list order to `({regex})`. -/
def not_prefixed_by_any (r : Regex) (lookbehinds : List (Str × Nat)) : Regex :=
  lookbehinds.foldr
    (fun x acc => .cat (.nlb x.2 (.cat (rxStr x.1) rxWs)) acc) r

/-- The `limited_acts` regex:
`not_prefixed_by_any(rf"{add_num(r'Acts?')}", NON_ACT_INDICATORS)`. -/
def limited_acts : Regex :=
  not_prefixed_by_any
    (add_num (.cat (rxStr (S ("Act"))) (rxOpt (.lit 's'))))
    NON_ACT_INDICATORS

/-- A `SerialPattern` (`statute_patterns/models.py`): a category, the
alternative regexes of the category label, the acceptable serial-number
shapes, and the `matches` / `excludes` self-test fixtures. -/
structure SerialPattern where
  statute_category : StatuteSerialCategory
  regex_bases : List Regex
  regex_serials : List Regex
  «matches» : List Str
  excludes : List Str

namespace SerialPattern

/-- The `lines` property: `({base}\s*{idx})` for every base (outer loop) and
every serial fragment (inner loop); the wrapping plain group does not affect
matching. -/
def lines (sp : SerialPattern) : List Regex :=
  sp.regex_bases.flatMap (fun b =>
    sp.regex_serials.map (fun i => Regex.cat b (Regex.cat (.star rxWs) i)))

/-- The `group_name` property: `serial_{statute_category}` (the enum's value,
by `use_enum_values`). -/
def group_name (sp : SerialPattern) : Str :=
  S ("serial_") ++ sp.statute_category.value

/-- The `regex` property: the named group `(?P<{group_name}>{alternation of
lines})`; the name is carried beside the AST (see `Regex`). -/
def regex (sp : SerialPattern) : Regex :=
  rxAlts sp.lines

/-- The `digits_in_match` property: `re.compile(r"|".join(regex_serials))`. -/
def digits_in_match (sp : SerialPattern) : Regex :=
  rxAlts sp.regex_serials

end SerialPattern

/-- Literal words joined by single `\s` fragments, for the sources' regexes
of the form `A\sB\s...` (`veto`, `rule_reso`). -/
def wordsWs : List Str → Regex
  | [] => .eps
  | [w] => rxStr w
  | w :: rest => .cat (rxStr w) (.cat rxWs (wordsWs rest))

/-- The `ra` serial pattern (`statute_patterns/serials.py`). -/
def ra : SerialPattern :=
  ⟨.RepublicAct,
   [add_num (ltr [S ("R"), S ("A")]),
    add_num (.cat (rxStr (S ("Rep")))
      (.cat (rxOpt (.alt (rxStr (S ("ublic"))) (.lit '.')))
        (.cat (rxPlus rxWs)
          (.cat (rxStr (S ("Act")))
            (rxOpt (.cat (.star rxWs)
              (.cat (.lit '(') (.cat (ltr [S ("R"), S ("A")]) (.lit ')')))))))))],
   [set_digits], [], []⟩

/-- The `veto` serial pattern — constructed in `serials.py` but never placed
in `SerializedRules`. -/
def veto : SerialPattern :=
  ⟨.VetoMessage,
   [.cat (wordsWs [S ("Veto"), S ("Message"), S ("-")]) rxWs],
   [.cat (rxRep rxDigit 5) (.star rxDigit)],
   [S ("Veto Message - 11534")], [S ("Veto Message")]⟩

/-- The `ca` serial pattern. -/
def ca : SerialPattern :=
  ⟨.CommonwealthAct,
   [add_num (ltr [S ("C"), S ("A")]),
    add_num (.cat (rxStr (S ("Com")))
      (.cat (rxOpt (.alt (rxStr (S ("monwealth"))) (.lit '.')))
        (.cat (rxPlus rxWs)
          (.cat (rxStr (S ("Act")))
            (rxOpt (.cat (.star rxWs)
              (.cat (.lit '(') (.cat (ltr [S ("C"), S ("A")]) (.lit ')')))))))))],
   [.cat (rxRange rxDigit 1 3)
      (rxOpt (.cat (.lit '-') (.cls (fun c => c = 'A' || c = 'B'))))],
   [], []⟩

/-- The `bp` serial pattern. -/
def bp : SerialPattern :=
  ⟨.BatasPambansa,
   [add_blg (ltr [S ("B"), S ("P")]),
    add_blg (.cat (rxStr (S ("Batas")))
      (.cat (rxPlus rxWs)
        (.cat (rxStr (S ("Pambansa")))
          (rxOpt (.cat (.star rxWs)
            (.cat (.lit '(') (.cat (ltr [S ("B"), S ("P")]) (.lit ')'))))))))],
   [.cat (rxRange rxDigit 1 3)
      (rxOpt (.cat (.lit '-') (.cls (fun c => c = 'A' || c = 'B'))))],
   [], []⟩

/-- The `act` serial pattern. -/
def act : SerialPattern :=
  ⟨.Act, [limited_acts], [rxRange rxDigit 1 4], [], []⟩

/-- The `pd` serial pattern. -/
def pd : SerialPattern :=
  ⟨.PresidentialDecree,
   [add_num (ltr [S ("P"), S ("D")]),
    add_num (.cat (rxStr (S ("Pres")))
      (.cat (rxOpt (.alt (rxStr (S ("idential"))) (.lit '.')))
        (.cat (rxPlus rxWs)
          (.cat (rxStr (S ("Dec")))
            (.cat (rxOpt (.alt (rxStr (S ("ree"))) (.lit '.')))
              (rxOpt (.cat (.star rxWs)
                (.cat (.lit '(') (.cat (ltr [S ("P"), S ("D")]) (.lit ')'))))))))))],
   [.cat (rxRange rxDigit 1 4)
      (rxOpt (.cat (.lit '-') (.cls (fun c => c = 'A' || c = 'B'))))],
   [], []⟩

/-- Alternation of a list of literal number strings, as in the enumerated
`regex_serials` allow-lists `(?:292|209|...)`. -/
def numAlts (l : List Str) : Regex :=
  rxAlts (l.map rxStr)

/-- The `eo` serial pattern (enumerated allow-list serials). -/
def eo : SerialPattern :=
  ⟨.ExecutiveOrder,
   [add_num (ltr [S ("E"), S ("O")]),
    add_num (.cat (rxStr (S ("Exec")))
      (.cat (rxOpt (.alt (rxStr (S ("utive"))) (.lit '.')))
        (.cat (rxPlus rxWs)
          (.cat (rxStr (S ("Orde"))) (.cat (rxOpt (.lit 'r'))
            (rxOpt (.cat (.star rxWs)
              (.cat (.lit '(') (.cat (ltr [S ("E"), S ("O")]) (.lit ')'))))))))))],
   [numAlts [S ("292"), S ("209"), S ("229"), S ("228"), S ("14"), S ("1008"),
      S ("648"), S ("129-a"), S ("226"), S ("227"), S ("91")],
    numAlts [S ("214"), S ("59"), S ("191"), S ("272"), S ("187"), S ("62"),
      S ("33"), S ("111"), S ("47"), S ("233")]],
   [S ("E.O. 292"), S ("EO 47")], [S ("EO 1")]⟩

/-- The `loi` serial pattern (enumerated allow-list serials). -/
def loi : SerialPattern :=
  ⟨.LetterOfInstruction,
   [add_num (ltr [S ("L"), S ("O"), S ("I")]),
    add_num (.cat (rxStr (S ("Letter"))) (.cat (rxOpt (.lit 's'))
      (.cat (rxPlus rxWs) (.cat (rxStr (S ("of")))
        (.cat (rxPlus rxWs) (rxStr (S ("Instruction"))))))))],
   [numAlts [S ("474"), S ("729"), S ("97"), S ("270"), S ("926"), S ("1295"),
      S ("19"), S ("174"), S ("273"), S ("767"), S ("1416"), S ("713"),
      S ("968")]],
   [S ("LOI 474"), S ("Letter of Instruction No. 1295")],
   [S ("Letter of Instruction No. 1")]⟩

/-- The `rule_am` serial pattern (`(?:\d{1,2}-){3}SC\b` and `99-10-05-0\b`
serials). -/
def rule_am : SerialPattern :=
  ⟨.AdministrativeMatter,
   [add_num (ltr [S ("A"), S ("M")]),
    add_num (.cat (rxStr (S ("Adm"))) (.cat (rxOpt (rxStr (S ("in"))))
      (.cat dotOpt (.cat (rxPlus rxWs) (rxStr (S ("Matter"))))))),
    add_num (.cat (rxStr (S ("Administrative")))
      (.cat (rxPlus rxWs) (rxStr (S ("Matter")))))],
   [.cat (rxRep (.cat (rxRange rxDigit 1 2) (.lit '-')) 3)
      (.cat (rxStr (S ("SC"))) .wb),
    .cat (rxStr (S ("99-10-05-0"))) .wb],
   [S ("Admin Matter No. 99-10-05-0")],
   [S ("A.M. 141241"), S ("Administrative Matter No. 12-12-12")]⟩

/-- The `rule_bm` serial pattern (enumerated allow-list serials). -/
def rule_bm : SerialPattern :=
  ⟨.BarMatter,
   [add_num (ltr [S ("B"), S ("M")]),
    add_num (.cat (rxStr (S ("Bar"))) (.cat (rxPlus rxWs) (rxStr (S ("Matter")))))],
   [numAlts [S ("803"), S ("1922"), S ("1645"), S ("850"), S ("287"),
      S ("1132"), S ("1755"), S ("1960"), S ("209"), S ("1153")],
    numAlts [S ("411"), S ("356")]],
   [S ("Bar Matter No.803")],
   [S ("A.M. 141241"), S ("Administrative Matter No. 12-12-12")]⟩

/-- The `sc_cir` serial pattern. -/
def sc_cir : SerialPattern :=
  ⟨.CircularSC,
   [add_num (.cat (rxStr (S ("SC"))) (.cat (rxPlus rxWs) (rxStr (S ("Circular")))))],
   [rxStr (S ("19"))],
   [S ("SC Circular No. 19")], [S ("SC Circular No. 1")]⟩

/-- The `oca_cir` serial pattern. -/
def oca_cir : SerialPattern :=
  ⟨.CircularOCA,
   [add_num (.cat (rxStr (S ("OCA"))) (.cat (rxPlus rxWs) (rxStr (S ("Circular")))))],
   [rxStr (S ("39-02"))],
   [S ("OCA Circular No. 39-02")], [S ("SC Circular No. 39")]⟩

/-- The `rule_reso` serial pattern — constructed in `serials.py` but never
placed in `SerializedRules`. -/
def rule_reso : SerialPattern :=
  ⟨.ResolutionEnBanc,
   [wordsWs [S ("Resolution"), S ("of"), S ("the"), S ("Court"), S ("En"),
      S ("Banc"), S ("dated")]],
   [rxStr (S ("10-15-1991"))],
   [S ("Resolution of the Court En Banc dated 10-15-1991")], []⟩

/-- The `SerializedRules` registry (`statute_patterns/serials.py`): the
eleven registered serial patterns, in construction order.  `veto` and
`rule_reso` are not members. -/
def SerializedRules : List SerialPattern :=
  [ra, ca, act, eo, pd, bp, loi, rule_am, rule_bm, sc_cir, oca_cir]

/-- The alternation a serial collection's `combined_regex` denotes, with each
alternative's group name (`"|".join([r.regex for r in self.collection])`). -/
def serialAlts (coll : List SerialPattern) : List (Str × Regex) :=
  coll.map (fun sp => (sp.group_name, sp.regex))

/-- Transcription of `SerialPatternCollection.extract_rules`
(`statute_patterns/models.py`): scan the text with the combined regex; for
each match, the pattern whose `group_name` is the match's last group
re-searches the matched text with `digits_in_match`, and each token
`digit_splitter` yields of that search becomes one Rule (the id lower-cased
by the `Rule` validator). -/
def serial_extract_rules (coll : List SerialPattern) (text : Str) : List Rule :=
  (findIter (serialAlts coll) text).flatMap (fun m =>
    coll.flatMap (fun sp =>
      if m.1 = sp.group_name then
        match search sp.digits_in_match m.2 with
        | some candidates => (digit_splitter candidates).map
            (fun d => mkRuleOfCat sp.statute_category d)
        | none => []
      else []))

/-- A `NamedPattern` (`statute_patterns/models.py`): a human label, one
hand-written regex, and the single fixed Rule it yields. -/
structure NamedPattern where
  name : Str
  regex_base : Regex
  rule : Rule
  «matches» : List Str
  excludes : List Str

/-- The `group_name` of a named pattern:
`slugify(" ".join([category, id]), separator="_")` — for the ids at hand,
the category value and id joined by an underscore. -/
def NamedPattern.group_name (np : NamedPattern) : Str :=
  np.rule.cat.value ++ ['_'] ++ np.rule.id

/-- The common tail `(:?\s+of\s+18\d{2})?` of the Spanish-code named regexes
(a group of an optional colon, `\s+of\s+18` and two digits, all optional). -/
def spainTail : Regex :=
  rxOpt (.cat (rxOpt (.lit ':'))
    (.cat (rxPlus rxWs) (.cat (rxStr (S ("of")))
      (.cat (rxPlus rxWs) (.cat (rxStr (S ("18"))) (rxRep rxDigit 2))))))

/-- The prefix alternation `(?:\[?Spanish\]?|Old)` of the Spanish-code named
regexes. -/
def spainPre : Regex :=
  .alt (.cat (rxOpt (.lit '[')) (.cat (rxStr (S ("Spanish"))) (rxOpt (.lit ']'))))
    (rxStr (S ("Old")))

/-- The Old Civil Code named pattern, with the regex shown in the
`NamedPatternCollection` docstring of `statute_patterns/models.py`:
`(?:\[?Spanish\]?|Old)\s+Civil\s+Code(:?\s+of\s+18\d{2})?` →
`Rule(spain, civil)`. -/
def oldCivilCode : NamedPattern :=
  ⟨S ("Old Civil Code"),
   .cat spainPre (.cat (rxPlus rxWs) (.cat (rxStr (S ("Civil")))
     (.cat (rxPlus rxWs) (.cat (rxStr (S ("Code"))) spainTail)))),
   ⟨.Spain, S ("civil")⟩, [], []⟩

/-- The Old Commerce Code named pattern (same docstring):
`(?:\[?Spanish\]?|Old)\s+Code\s+of\s+Commerce(:?\s+of\s+18\d{2})?` →
`Rule(spain, commerce)`. -/
def oldCommerceCode : NamedPattern :=
  ⟨S ("Old Commerce Code"),
   .cat spainPre (.cat (rxPlus rxWs) (.cat (rxStr (S ("Code")))
     (.cat (rxPlus rxWs) (.cat (rxStr (S ("of")))
       (.cat (rxPlus rxWs) (.cat (rxStr (S ("Commerce"))) spainTail)))))),
   ⟨.Spain, S ("commerce")⟩, [], []⟩

/-- The Old Penal Code named pattern (same docstring):
`(?:\[?Spanish\]?|Old)\s+Penal\s+Code(:?\s+of\s+18\d{2})?` →
`Rule(spain, penal)`. -/
def oldPenalCode : NamedPattern :=
  ⟨S ("Old Penal Code"),
   .cat spainPre (.cat (rxPlus rxWs) (.cat (rxStr (S ("Penal")))
     (.cat (rxPlus rxWs) (.cat (rxStr (S ("Code"))) spainTail)))),
   ⟨.Spain, S ("penal")⟩, [], []⟩

/-- Modelled from the spec: the `names.py` module holding the named-pattern
registry is not among the repository's files (only its importers are), so
its Civil Code alias pattern is modelled from the spec's words — the named
strategy matches "hand-curated aliases for statutes without reliable serial
forms ('the Civil Code of the Philippines')", and on the reference text that
alias yields the Rule `(ra, 386)` counted together with the serial mention
of Republic Act No. 386. -/
def civilCodeOfThePhilippines : NamedPattern :=
  ⟨S ("Civil Code of the Philippines"),
   .cat (rxStr (S ("Civil"))) (.cat (rxPlus rxWs) (.cat (rxStr (S ("Code")))
     (.cat (rxPlus rxWs) (.cat (rxStr (S ("of")))
       (.cat (rxPlus rxWs) (.cat (rxStr (S ("the")))
         (.cat (rxPlus rxWs) (rxStr (S ("Philippines")))))))))),
   ⟨.RepublicAct, S ("386")⟩, [], []⟩

/-- Modelled from the spec: the `NamedRules` registry (`names.py`, absent
from the repository's files).  It holds the named patterns needed by the
reference behaviour quoted in the spec: the Civil Code of the Philippines
alias and the three Spanish-code patterns displayed in the
`NamedPatternCollection` docstring of `statute_patterns/models.py`. -/
def NamedRules : List NamedPattern :=
  [civilCodeOfThePhilippines, oldCivilCode, oldCommerceCode, oldPenalCode]

/-- The combined alternation of a named collection, with group names. -/
def namedAlts (coll : List NamedPattern) : List (Str × Regex) :=
  coll.map (fun np => (np.group_name, np.regex_base))

/-- Transcription of `NamedPatternCollection.extract_rules`
(`statute_patterns/models.py`): for each match of the combined regex, the
pattern whose `group_name` is the match's last group yields its fixed rule. -/
def named_extract_rules (coll : List NamedPattern) (text : Str) : List Rule :=
  (findIter (namedAlts coll) text).flatMap (fun m =>
    coll.flatMap (fun np => if m.1 = np.group_name then [np.rule] else []))

/-- Transcription of `extract_rules` (`statute_patterns/__main__.py`): all
Rules of the Serial registry, then all Rules of the Named registry. -/
def extract_rules (text : Str) : List Rule :=
  serial_extract_rules SerializedRules text ++ named_extract_rules NamedRules text

/-- Transcription of `extract_rule`: the first extracted Rule, if any. -/
def extract_rule (text : Str) : Option Rule :=
  (extract_rules text).head?

/-- Python `collections.Counter(iterable)`: insertion builds the entry list
in first-seen key order; a repeat increments its key's count in place. -/
def counterAdd (acc : List (Rule × Nat)) (r : Rule) : List (Rule × Nat) :=
  if acc.any (fun p => p.1 = r) then
    acc.map (fun p => if p.1 = r then (p.1, p.2 + 1) else p)
  else acc ++ [(r, 1)]

/-- The Counter of a list of Rules. -/
def pyCounter (rules : List Rule) : List (Rule × Nat) :=
  rules.foldl counterAdd []

/-- Transcription of `count_rules` (`statute_patterns/__main__.py`): the
entries of `Counter(extract_rules(text))` in order — each unique Rule (by
value) with its number of mentions (`k.dict() | {"mentions": v}` is modelled
as the pair of the Rule and the count). -/
def count_rules (text : Str) : List (Rule × Nat) :=
  pyCounter (extract_rules text)

/-- Message of `validate_matches` (`statute_patterns/components/rule.py`). -/
def missingMatchMsg (m : Str) : Str :=
  S ("Missing match but intended to be included: ") ++ m

/-- Message of `validate_excludes` (`statute_patterns/components/rule.py`). -/
def excludedMatchMsg (e : Str) : Str :=
  S ("Match found even if intended to be excluded: ") ++ e ++ S (".")

/-- Transcription of `BasePattern.__init__`
(`statute_patterns/components/rule.py`): after field assignment it runs
`validate_matches` — raising on the first `matches` fixture that does not
fully match the compiled regex — then `validate_excludes` — raising on the
first `excludes` fixture that does fully match it.  A raise is `.error` with
the raised message. -/
def patternInit (r : Regex) (ms es : List Str) : Except Str Unit :=
  match ms.find? (fun m => !fullmatchB r m) with
  | some m => .error (missingMatchMsg m)
  | none =>
    match es.find? (fun e => fullmatchB r e) with
    | some e => .error (excludedMatchMsg e)
    | none => .ok ()

/-- Test for `Except.isOk`. -/
def exceptIsOk (x : Except Str Unit) : Bool :=
  match x with
  | .ok _ => true
  | .error _ => false

/-- Test whether a `SerializeResult` is a raised formatting error. -/
def SerializeResult.isInvalid : SerializeResult → Bool
  | .invalid _ => true
  | _ => false

/-- Test whether a `SerializeResult` carries a title. -/
def SerializeResult.isTitle : SerializeResult → Bool
  | .title _ => true
  | _ => false

/-- Specification-side separator class: a comma or a whitespace character
(the spec's compound-identifier separators; the third separator, the word
`and` surrounded by whitespace, is covered by the whitespace split together
with the bare-`and` filter below). -/
def isSepChar (c : Char) : Bool := c = ',' || isPySpace c

/-- Specification-side raw tokens: maximal runs of non-separator characters
(`acc` is the reversed current run; splitting at every separator character
may produce empty tokens, discarded by `specSplit`). -/
def specTokens : Str → Str → List Str
  | acc, [] => [acc.reverse]
  | acc, c :: rest =>
    if isSepChar c then acc.reverse :: specTokens [] rest
    else specTokens (c :: acc) rest

/-- Specification-side token filter: discard empty tokens and the bare
literal `and`. -/
def keepToken (t : Str) : Bool :=
  !t.isEmpty && t ≠ S ("and")

/-- Specification-side splitter, following the spec's words: split on the
compound-identifier separators, discarding empty tokens and the bare literal
`and`. -/
def specSplit (s : Str) : List Str :=
  (specTokens [] s).filter keepToken

/-- Distinct elements of a list in first-seen order. -/
def firstSeen : List Rule → List Rule
  | [] => []
  | r :: rest => r :: (firstSeen rest).filter (fun x => x ≠ r)

/-- C1: for every input text, `extract_rules(text)` produces all Rules found
by the Serial registry followed by all Rules found by the Named registry
(registry-by-registry concatenation); on the text "The Civil Code of the
Philippines, the old Spanish Civil Code; Rep Act No. 386" it yields exactly
`[(ra, 386), (ra, 386), (spain, civil)]`. -/
theorem extract_rules_serial_then_named :
    (∀ text : Str, extract_rules text =
        serial_extract_rules SerializedRules text ++
          named_extract_rules NamedRules text) ∧
    extract_rules
        (S ("The Civil Code of the Philippines, the old Spanish Civil Code; Rep Act No. 386")) =
      [⟨.RepublicAct, S ("386")⟩, ⟨.RepublicAct, S ("386")⟩, ⟨.Spain, S ("civil")⟩] :=
  ⟨fun _ => rfl, by decide⟩

/-- C4: Rule construction normalizes both fields to lower case (the category
is looked up by its lower-cased value, the id is lower-cased), equality is by
`(category, id)` value, `Rule(category="RA", id="386")` equals
`Rule(category="ra", id="386")`, and equal Rules have equal hash input. -/
theorem rule_fields_normalized_and_value_equality :
    (∀ cat id r, mkRule cat id = some r →
      r.id = pyLower id ∧ r.cat.value = pyLower cat) ∧
    (∀ r s : Rule, r = s ↔ r.cat = s.cat ∧ r.id = s.id) ∧
    mkRule (S ("RA")) (S ("386")) = mkRule (S ("ra")) (S ("386")) ∧
    (∀ r s : Rule, r = s → ruleHashInput r = ruleHashInput s) := by
  refine ⟨?_, ?_, by decide, ?_⟩
  · intro cat id r h
    simp only [mkRule, Option.map_eq_some'] at h
    obtain ⟨c, hc, hr⟩ := h
    subst hr
    refine ⟨rfl, ?_⟩
    have := List.find?_some hc
    exact of_decide_eq_true this
  · intro r s
    cases r; cases s
    simp [Rule.mk.injEq]
  · intro r s h
    rw [h]

/-- C4 witness: the first conjunct applied at the concrete construction
`mkRule "RA" "386"`. -/
theorem rule_fields_normalized_witness :
    (⟨.RepublicAct, S ("386")⟩ : Rule).id = pyLower (S ("386")) ∧
      (⟨.RepublicAct, S ("386")⟩ : Rule).cat.value = pyLower (S ("RA")) :=
  rule_fields_normalized_and_value_equality.1 (S ("RA")) (S ("386"))
    ⟨.RepublicAct, S ("386")⟩ (by decide)

/-- C6: `serialize` for `RulesOfCourt` returns `"<ID> Rules of Court"` for
the ids of the fixed allow-list (`1940`, `1964`), returns
`"Code of Professional Responsibility"` for the special id `cpr`, and fails
(raises) for every other id. -/
theorem roc_serialize_allow_list :
    (∀ idx : Str, idx = S ("1940") ∨ idx = S ("1964") →
      serialize .RulesOfCourt idx = .title (idx ++ S (" Rules of Court"))) ∧
    serialize .RulesOfCourt (S ("cpr")) =
      .title (S ("Code of Professional Responsibility")) ∧
    (∀ idx : Str, idx ≠ S ("1940") → idx ≠ S ("1964") → idx ≠ S ("cpr") →
      serialize .RulesOfCourt idx = .invalid idx) := by
  refine ⟨?_, by decide, ?_⟩
  · intro idx h
    rcases h with h | h <;> subst h <;> decide
  · intro idx h1 h2 h3
    simp [serialize, h1, h2, h3]

/-- C6 witness: the allow-list conjunct applied at the concrete id `1964`,
and the failure conjunct at the concrete id `1965`. -/
theorem roc_serialize_allow_list_witness :
    serialize .RulesOfCourt (S ("1964")) =
        .title (S ("1964") ++ S (" Rules of Court")) ∧
      serialize .RulesOfCourt (S ("1965")) = .invalid (S ("1965")) :=
  ⟨roc_serialize_allow_list.1 (S ("1964")) (Or.inr rfl),
   roc_serialize_allow_list.2.2 (S ("1965")) (by decide) (by decide) (by decide)⟩

/-- C7 counterexample: `serialize` for `BatasPambansa` on the non-numeric id
`22a` does not raise a `FormatError`: the arm's `if` has no `else`, so the
call falls through and returns Python's `None`. -/
theorem bp_nonnumeric_returns_none :
    serialize .BatasPambansa (S ("22a")) = .nothing ∧
      (serialize .BatasPambansa (S ("22a"))).isInvalid = false := by
  decide

/-- C7 (amended): `serialize` for `BatasPambansa` returns
`"Batas Pambansa Blg. <ID>"` for every purely numeric id, and for every
non-numeric id it returns no result at all (Python's implicit `None`) —
neither a title nor a raised `FormatError`. -/
theorem bp_serialize_amended :
    ∀ idx : Str, serialize .BatasPambansa idx =
      if pyIsDigit idx then .title (S ("Batas Pambansa Blg. ") ++ idx)
      else .nothing := by
  intro idx
  have hbp : uncamel .BatasPambansa = S ("Batas Pambansa") := by decide
  by_cases h : pyIsDigit idx = true
  · simp [serialize, h, hbp, S]
  · simp only [Bool.not_eq_true] at h
    simp [serialize, h]

/-- C8 counterexample: `serialize` for `Constitution` accepts the id `01935`
(it is a digit string and `int("01935") = 1935`), although `01935` is not one
of the digit strings `1935`, `1973`, `1987`. -/
theorem const_accepts_leading_zero :
    serialize .Constitution (S ("01935")) =
        .title (S ("01935 Constitution")) ∧
      (S ("01935") ≠ S ("1935") ∧ S ("01935") ≠ S ("1973") ∧
        S ("01935") ≠ S ("1987")) := by
  decide

/-- C8 (amended): `serialize` for `Constitution` succeeds with result
`"<ID> Constitution"` if and only if the id is a nonempty digit string whose
decimal value is 1935, 1973 or 1987 (leading zeros permitted); every other id
fails. -/
theorem const_serialize_amended :
    ∀ idx : Str,
      (serialize .Constitution idx = .title (idx ++ S (" Constitution")) ↔
        pyIsDigit idx = true ∧
          (decimalVal idx = 1935 ∨ decimalVal idx = 1973 ∨
            decimalVal idx = 1987)) ∧
      ((serialize .Constitution idx).isTitle = false →
        serialize .Constitution idx = .invalid idx) := by
  intro idx
  by_cases h : pyIsDigit idx = true ∧
      (decimalVal idx = 1935 ∨ decimalVal idx = 1973 ∨ decimalVal idx = 1987)
  · obtain ⟨h1, h2⟩ := h
    have : serialize .Constitution idx = .title (idx ++ S (" Constitution")) := by
      simp only [serialize]
      rw [if_pos]
      simp only [Bool.and_eq_true, Bool.or_eq_true, decide_eq_true_eq]
      exact ⟨h1, by tauto⟩
    simp [this, SerializeResult.isTitle, h1, h2]
  · have : serialize .Constitution idx = .invalid idx := by
      simp only [serialize]
      rw [if_neg]
      intro hc
      simp only [Bool.and_eq_true, Bool.or_eq_true, decide_eq_true_eq] at hc
      exact h ⟨hc.1, by tauto⟩
    simp [this, SerializeResult.isTitle, h]

/-- C10: the `SerializedRules` registry holds exactly the eleven serial
patterns of categories ra, ca, act, eo, pd, bp, loi, rule_am, rule_bm,
sc_cir, oca_cir; the `veto` and `rule_reso` patterns are never registered, so
no serial-registry scan of any text yields a Rule of category veto or
rule_reso; the text "Veto Message - 11534" yields zero serial Rules even
though it fully matches the unregistered veto pattern's own regex (and that
pattern's construction-time self-test passes). -/
theorem serialized_rules_registry_contents :
    SerializedRules.map (fun sp => sp.statute_category) =
        [.RepublicAct, .CommonwealthAct, .Act, .ExecutiveOrder,
         .PresidentialDecree, .BatasPambansa, .LetterOfInstruction,
         .AdministrativeMatter, .BarMatter, .CircularSC, .CircularOCA] ∧
      SerializedRules.length = 11 ∧
      (∀ text : Str, ∀ r ∈ serial_extract_rules SerializedRules text,
        r.cat ∈ SerializedRules.map (fun sp => sp.statute_category) ∧
          r.cat ≠ .VetoMessage ∧ r.cat ≠ .ResolutionEnBanc) ∧
      fullmatchB veto.regex (S ("Veto Message - 11534")) = true ∧
      exceptIsOk (patternInit veto.regex veto.«matches» veto.excludes) = true ∧
      serial_extract_rules SerializedRules (S ("Veto Message - 11534")) = [] := by
  refine ⟨by decide, by decide, ?_, by decide, by decide, by decide⟩
  intro text r hr
  simp only [serial_extract_rules, List.mem_flatMap] at hr
  obtain ⟨m, _, sp, hsp, hrsp⟩ := hr
  have hcat : r.cat = sp.statute_category := by
    by_cases hg : m.1 = sp.group_name
    · simp only [hg, if_pos rfl] at hrsp
      match hs : search sp.digits_in_match m.2 with
      | some cand =>
        rw [hs] at hrsp
        obtain ⟨d, _, hd⟩ := List.mem_map.mp hrsp
        rw [← hd]
        rfl
      | none => rw [hs] at hrsp; simp at hrsp
    · rw [if_neg hg] at hrsp; simp at hrsp
  rw [hcat]
  have hmem : sp.statute_category ∈
      SerializedRules.map (fun sp => sp.statute_category) :=
    List.mem_map.mpr ⟨sp, hsp, rfl⟩
  refine ⟨hmem, ?_, ?_⟩ <;>
    · intro hveto
      rw [hveto] at hmem
      revert hmem
      decide

/-- C10 witness: the universal category conjunct applied at the concrete
text "R.A. 386" and its extracted Rule `(ra, 386)`. -/
theorem serialized_rules_registry_contents_witness :
    (⟨.RepublicAct, S ("386")⟩ : Rule).cat ∈
        SerializedRules.map (fun sp => sp.statute_category) ∧
      (⟨.RepublicAct, S ("386")⟩ : Rule).cat ≠ .VetoMessage ∧
      (⟨.RepublicAct, S ("386")⟩ : Rule).cat ≠ .ResolutionEnBanc :=
  serialized_rules_registry_contents.2.2.1 (S ("R.A. 386"))
    ⟨.RepublicAct, S ("386")⟩ (by decide)

/-- C5: constructing a Pattern succeeds if and only if every `matches`
fixture fully matches the compiled regex and no `excludes` fixture fully
matches it; on violation, construction fails with an error message naming the
offending fixture. -/
theorem pattern_construction_self_test :
    (∀ (r : Regex) (ms es : List Str),
      exceptIsOk (patternInit r ms es) = true ↔
        ((∀ m ∈ ms, fullmatchB r m = true) ∧
          (∀ e ∈ es, fullmatchB r e = false))) ∧
    (∀ (r : Regex) (ms es : List Str) (msg : Str),
      patternInit r ms es = .error msg →
        (∃ m ∈ ms, fullmatchB r m = false ∧ msg = missingMatchMsg m) ∨
        (∃ e ∈ es, fullmatchB r e = true ∧ msg = excludedMatchMsg e)) := by
  constructor
  · intro r ms es
    unfold patternInit
    match hm : ms.find? (fun m => !fullmatchB r m) with
    | some m =>
      apply iff_of_false
      · simp [exceptIsOk]
      · rintro ⟨hall, -⟩
        have h1 := List.find?_some hm
        have h2 := List.mem_of_find?_eq_some hm
        simp only [Bool.not_eq_eq_eq_not, Bool.not_true] at h1
        rw [hall m h2] at h1
        simp at h1
    | none =>
      have hms : ∀ m ∈ ms, fullmatchB r m = true := by
        intro m hmem
        have := List.find?_eq_none.mp hm m hmem
        simpa using this
      match he : es.find? (fun e => fullmatchB r e) with
      | some e =>
        apply iff_of_false
        · simp [exceptIsOk]
        · rintro ⟨-, hall⟩
          have h1 := List.find?_some he
          have h2 := List.mem_of_find?_eq_some he
          simp only [decide_eq_true_eq] at h1
          rw [hall e h2] at h1
          simp at h1
      | none =>
        have hes : ∀ e ∈ es, fullmatchB r e = false := by
          intro e hmem
          have := List.find?_eq_none.mp he e hmem
          simpa using this
        simp only [exceptIsOk, true_iff]
        exact ⟨hms, hes⟩
  · intro r ms es msg herr
    unfold patternInit at herr
    match hm : ms.find? (fun m => !fullmatchB r m) with
    | some m =>
      rw [hm] at herr
      left
      refine ⟨m, List.mem_of_find?_eq_some hm, ?_, ?_⟩
      · have h1 := List.find?_some hm
        simpa using h1
      · cases herr
        rfl
    | none =>
      rw [hm] at herr
      match he : es.find? (fun e => fullmatchB r e) with
      | some e =>
        rw [he] at herr
        right
        refine ⟨e, List.mem_of_find?_eq_some he, List.find?_some he, ?_⟩
        cases herr
        rfl
      | none =>
        rw [he] at herr
        cases herr

/-- C5 witness: the success direction applied to the one-character regex `a`
with a passing `matches` fixture and a passing `excludes` fixture. -/
theorem pattern_construction_self_test_witness :
    exceptIsOk (patternInit (.lit 'a') [[('a')]] [[('b')]]) = true :=
  (pattern_construction_self_test.1 (.lit 'a') [[('a')]] [[('b')]]).mpr
    (by decide)

/-- Membership in `firstSeen` is membership in the list. -/
theorem mem_firstSeen {l : List Rule} {a : Rule} : a ∈ firstSeen l ↔ a ∈ l := by
  induction l with
  | nil => simp [firstSeen]
  | cons r rest ih =>
    simp only [firstSeen, List.mem_cons, List.mem_filter, ih]
    by_cases ha : a = r
    · simp [ha]
    · simp [ha]

/-- Appending one element extends `firstSeen` exactly when the element is
new. -/
theorem firstSeen_append_singleton (l : List Rule) (x : Rule) :
    firstSeen (l ++ [x]) =
      if x ∈ l then firstSeen l else firstSeen l ++ [x] := by
  induction l with
  | nil => simp [firstSeen]
  | cons r rest ih =>
    by_cases hx : x ∈ rest
    · rw [if_pos (List.mem_cons_of_mem _ hx)]
      show firstSeen (r :: (rest ++ [x])) = firstSeen (r :: rest)
      simp only [firstSeen, ih, if_pos hx]
    · by_cases hxr : x = r
      · rw [if_pos (by simp [hxr])]
        show firstSeen (r :: (rest ++ [x])) = firstSeen (r :: rest)
        simp only [firstSeen, ih, if_neg hx, List.filter_append]
        congr 1
        have : List.filter (fun a => decide (a ≠ r)) [x] = [] := by
          simp [hxr]
        rw [this, List.append_nil]
      · rw [if_neg (by simp [hxr, hx])]
        show firstSeen (r :: (rest ++ [x])) =
          firstSeen (r :: rest) ++ [x]
        simp only [firstSeen, ih, if_neg hx, List.filter_append,
          List.cons_append]
        congr 1
        have : List.filter (fun a => decide (a ≠ r)) [x] = [x] := by
          simp [hxr]
        rw [this]

/-- The Counter of a Rule list is its distinct Rules in first-seen order,
each with its occurrence count. -/
theorem pyCounter_eq_firstSeen_counts (l : List Rule) :
    pyCounter l = (firstSeen l).map (fun r => (r, l.count r)) := by
  induction l using List.reverseRecOn with
  | nil => simp [pyCounter, firstSeen]
  | append_singleton l x ih =>
    rw [pyCounter, List.foldl_append, ← pyCounter, ih, List.foldl_cons,
      List.foldl_nil, firstSeen_append_singleton]
    by_cases hx : x ∈ l
    · have hany : ((firstSeen l).map (fun r => (r, l.count r))).any
          (fun p => p.1 = x) = true := by
        simp only [List.any_eq_true]
        exact ⟨(x, l.count x), List.mem_map.mpr
          ⟨x, mem_firstSeen.mpr hx, rfl⟩, by simp⟩
      rw [counterAdd, if_pos hany, if_pos hx, List.map_map]
      apply List.map_congr_left
      intro r _
      by_cases hrx : r = x
      · simp [hrx, Function.comp, List.count_append]
      · simp [hrx, Function.comp, List.count_append,
          List.count_singleton', Ne.symm hrx]
    · have hany : ((firstSeen l).map (fun r => (r, l.count r))).any
          (fun p => p.1 = x) = false := by
        simp only [List.any_eq_false]
        intro p hp
        obtain ⟨r, hr, hpr⟩ := List.mem_map.mp hp
        have : r ∈ l := mem_firstSeen.mp hr
        subst hpr
        simp only [decide_eq_true_eq]
        intro hrx
        exact hx (hrx ▸ this)
      rw [counterAdd, if_neg (by simp [hany]), if_neg hx, List.map_append]
      congr 1
      · apply List.map_congr_left
        intro r hr
        have hrl : r ∈ l := mem_firstSeen.mp hr
        have hrx : r ≠ x := fun h => hx (h ▸ hrl)
        simp [List.count_append, List.count_singleton', hrx]
      · simp [List.count_append, List.count_eq_zero_of_not_mem hx]

/-- C3: `count_rules(text)` groups the output of `extract_rules(text)` by
Rule value, preserving first-seen order, and reports for each distinct Rule
its number of occurrences; on the reference text the counts are
`(ra, 386) ↦ 2` and `(spain, civil) ↦ 1`. -/
theorem count_rules_groups_by_value_first_seen :
    (∀ text : Str, count_rules text =
      (firstSeen (extract_rules text)).map
        (fun r => (r, (extract_rules text).count r))) ∧
    count_rules
        (S ("The Civil Code of the Philippines, the old Spanish Civil Code; Rep Act No. 386")) =
      [(⟨.RepublicAct, S ("386")⟩, 2), (⟨.Spain, S ("civil")⟩, 1)] :=
  ⟨fun _ => pyCounter_eq_firstSeen_counts _, by decide⟩

/-- Dropping whitespace from a list without whitespace is the identity. -/
theorem dropWhile_space_of_none {l : Str}
    (h : ∀ c ∈ l, isPySpace c = false) : l.dropWhile isPySpace = l := by
  cases l with
  | nil => rfl
  | cons c rest =>
    rw [List.dropWhile_cons]
    simp [h c (by simp)]

/-- Stripping a string without whitespace is the identity. -/
theorem pyStrip_of_no_space {p : Str}
    (h : ∀ c ∈ p, isPySpace c = false) : pyStrip p = p := by
  unfold pyStrip
  rw [dropWhile_space_of_none h,
    dropWhile_space_of_none (fun c hc => h c (List.mem_reverse.mp hc)),
    List.reverse_reverse]

/-- On a piece without separator characters, `digit_splitter`'s filter is
the spec's token filter. -/
theorem pieceKeep_eq_keepToken {p : Str}
    (h : ∀ c ∈ p, isSepChar c = false) :
    pieceKeep (some p) = if keepToken p then some p else none := by
  have hsp : ∀ c ∈ p, isPySpace c = false := by
    intro c hc
    have := h c hc
    simp only [isSepChar, Bool.or_eq_false_iff] at this
    exact this.2
  have hred : pieceKeep (some p) =
      if !p.isEmpty && !(pyStrip p).isEmpty && p ≠ S ("and") then
        some (pyStrip p)
      else none := rfl
  rw [hred, pyStrip_of_no_space hsp]
  unfold keepToken
  by_cases he : p.isEmpty
  · simp [he]
  · by_cases ha : p = S ("and")
    · simp [he, ha]
    · simp [he, ha]

/-- Leading whitespace only contributes empty tokens, which the filter
discards. -/
theorem specTokens_dropWhile_space (l : Str) :
    ((specTokens [] (l.dropWhile isPySpace)).filter keepToken) =
      (specTokens [] l).filter keepToken := by
  induction l with
  | nil => rfl
  | cons c rest ih =>
    by_cases hc : isPySpace c = true
    · rw [List.dropWhile_cons, if_pos hc]
      rw [ih]
      have hsep : isSepChar c = true := by simp [isSepChar, hc]
      show _ = (specTokens [] (c :: rest)).filter keepToken
      rw [specTokens, if_pos hsep]
      rw [List.filter_cons]
      simp [keepToken]
    · rw [List.dropWhile_cons, if_neg (by simp [hc])]

/-- Dropping a matching run never lengthens a list. -/
theorem length_dropWhile_le_self (p : Char → Bool) (l : Str) :
    (l.dropWhile p).length ≤ l.length := by
  induction l with
  | nil => simp
  | cons c rest ih =>
    rw [List.dropWhile_cons]
    by_cases h : p c
    · simp [h]
      omega
    · simp [h]

/-- The split of the empty rest is the one accumulated piece, whatever the
fuel. -/
theorem pySplit_nil (f : Nat) (acc : Str) :
    pySplit f acc [] = [some acc.reverse] := by
  cases f <;> rfl

/-- A singleton piece without separator characters passes the two filters
identically. -/
theorem filterMap_piece_singleton {p : Str}
    (h : ∀ c ∈ p, isSepChar c = false) :
    ([some p] : List (Option Str)).filterMap pieceKeep =
      [p].filter keepToken := by
  rw [List.filterMap, List.filter, pieceKeep_eq_keepToken h]
  by_cases hk : keepToken p <;> simp [hk]

/-- Core of C2: `digit_splitter`'s split-and-filter computes exactly the
spec's splitting, generalized over the length bound, the fuel and the
reversed current piece. -/
theorem pySplit_filter_eq_specTokens_filter (n : Nat) :
    ∀ (s acc : Str) (f : Nat), s.length ≤ n → s.length < f →
      (∀ c ∈ acc, isSepChar c = false) →
      (pySplit f acc s).filterMap pieceKeep =
        (specTokens acc s).filter keepToken := by
  induction n with
  | zero =>
    intro s acc f hn _ hacc
    have hs : s = [] := List.length_eq_zero.mp (Nat.le_zero.mp hn)
    subst hs
    rw [pySplit_nil, specTokens]
    exact filterMap_piece_singleton
      (fun c hc => hacc c (List.mem_reverse.mp hc))
  | succ n ih =>
    intro s acc f hn hf hacc
    match s, f with
    | [], f =>
      rw [pySplit_nil, specTokens]
      exact filterMap_piece_singleton
        (fun c hc => hacc c (List.mem_reverse.mp hc))
    | c :: rest, f + 1 =>
      have hrestn : rest.length ≤ n := by
        simp only [List.length_cons] at hn
        omega
      have hrestf : rest.length < f := by
        simp only [List.length_cons] at hf
        omega
      have haccrev : ∀ x ∈ acc.reverse, isSepChar x = false :=
        fun x hx => hacc x (List.mem_reverse.mp hx)
      rw [pySplit]
      by_cases hcomma : c = ','
      · have hsep1 : sepMatch (c :: rest) = some (rest, none) := by
          rw [sepMatch, if_pos (by simp [hcomma])]
        have hsepc : isSepChar c = true := by simp [isSepChar, hcomma]
        rw [hsep1, specTokens, if_pos hsepc]
        have hrec := ih rest [] f hrestn hrestf (by intro x hx; simp at hx)
        rw [List.filterMap_cons, List.filterMap_cons,
          pieceKeep_eq_keepToken haccrev, List.filter_cons]
        by_cases hk : keepToken acc.reverse <;> simp [hk, pieceKeep, hrec]
      · by_cases hspace : isPySpace c = true
        · have hsep1 : sepMatch (c :: rest) =
              some (rest.dropWhile isPySpace, none) := by
            rw [sepMatch, if_neg (by simp [hcomma]), if_pos hspace]
          have hsepc : isSepChar c = true := by simp [isSepChar, hspace]
          rw [hsep1, specTokens, if_pos hsepc]
          have hrec := ih (rest.dropWhile isPySpace) [] f
            (Nat.le_trans (length_dropWhile_le_self _ _) hrestn)
            (Nat.lt_of_le_of_lt (length_dropWhile_le_self _ _) hrestf)
            (by intro x hx; simp at hx)
          rw [List.filterMap_cons, List.filterMap_cons,
            pieceKeep_eq_keepToken haccrev, List.filter_cons]
          have hws := specTokens_dropWhile_space rest
          by_cases hk : keepToken acc.reverse <;>
            simp [hk, pieceKeep, hrec, hws]
        · have hsep1 : sepMatch (c :: rest) = none := by
            rw [sepMatch, if_neg (by simp [hcomma]), if_neg (by simp [hspace])]
          have hsepc : isSepChar c = false := by
            simp [isSepChar, hcomma, hspace]
          rw [hsep1, specTokens, if_neg (by simp [hsepc])]
          exact ih rest (c :: acc) f hrestn hrestf (by
            intro x hx
            rcases List.mem_cons.mp hx with h | h
            · subst h; exact hsepc
            · exact hacc x h)

/-- C2: `digit_splitter` splits the isolated serial substring on comma,
whitespace runs, or the word `and` surrounded by whitespace, discarding empty
tokens and the bare literal `and` (proved against the spec-side splitter
`specSplit` for every input); on "Republic Act No. 386, 1114, and 11000" the
pipeline yields `[(ra, 386), (ra, 1114), (ra, 11000)]` in token order. -/
theorem digit_splitter_compound_tokens :
    (∀ s : Str, digit_splitter s = specSplit s) ∧
    digit_splitter (S ("386, 1114, and 11000")) =
      [S ("386"), S ("1114"), S ("11000")] ∧
    serial_extract_rules SerializedRules
        (S ("Republic Act No. 386, 1114, and 11000")) =
      [⟨.RepublicAct, S ("386")⟩, ⟨.RepublicAct, S ("1114")⟩,
       ⟨.RepublicAct, S ("11000")⟩] := by
  refine ⟨?_, by decide, by decide⟩
  intro s
  exact pySplit_filter_eq_specTokens_filter s.length s [] (s.length + 1)
    (Nat.le_refl _) (Nat.lt_succ_self _) (by intro x hx; simp at hx)

/-- C9 counterexample: on the id `a\nb-sc-1` — which does contain a trailing
`-sc-<digits>` variant suffix — `serialize` for `AdministrativeMatter` does
not truncate at the `sc` marker: the detection regex's `.*` cannot cross the
newline, so the whole id is uppercased instead. -/
theorem am_newline_id_not_truncated :
    serialize .AdministrativeMatter (S ("a\nb-sc-1")) =
        .title (S ("Administrative Matter No. A\nB-SC-1")) ∧
      serialize .AdministrativeMatter (S ("a\nb-sc-1")) ≠
        .title (S ("Administrative Matter No. A\nB-SC")) := by
  decide

/-- A digit character is none of the marker characters. -/
theorem digit_ne_marker {c : Char} (h : c.isDigit = true) :
    c ≠ '-' ∧ c ≠ 's' ∧ c ≠ 'c' ∧ c ≠ '\n' := by
  refine ⟨?_, ?_, ?_, ?_⟩ <;> intro hc <;> subst hc <;> simp at h

/-- A self-append is always a (Boolean) prefix. -/
theorem isPrefixOf_self_append (sub u : Str) :
    List.isPrefixOf sub (sub ++ u) = true := by
  induction sub with
  | nil => simp [List.isPrefixOf]
  | cons a as ih => simp [List.isPrefixOf, ih]

/-- Python's `in`: a substring occurring anywhere is found. -/
theorem pyContains_append_left (t sub u : Str) :
    pyContains sub (t ++ (sub ++ u)) = true := by
  induction t with
  | nil =>
    match hsub : sub with
    | [] =>
      cases u with
      | nil => rfl
      | cons c rest => simp [pyContains, List.isPrefixOf]
    | s0 :: s' =>
      show pyContains (s0 :: s') (s0 :: (s' ++ u)) = true
      rw [pyContains]
      have := isPrefixOf_self_append (s0 :: s') u
      simp only [List.cons_append] at this
      simp [this]
  | cons c t' ih =>
    show pyContains sub (c :: (t' ++ (sub ++ u))) = true
    rw [pyContains, ih]
    simp

/-- The suffix test `small_idx.endswith("sc")` fails when the string ends in
a digit. -/
theorem endswith_sc_false_of_digit_last {s ds : Str} (pre : Str)
    (hs : s = pre ++ ds) (hne : ds ≠ [])
    (hdig : ∀ c ∈ ds, c.isDigit = true) :
    List.isSuffixOf (S ("sc")) s = false := by
  obtain ⟨d, u, hdu⟩ : ∃ d u, ds.reverse = d :: u := by
    match hrev : ds.reverse with
    | [] => exact absurd (by simpa using congrArg List.reverse hrev) hne
    | d :: u => exact ⟨d, u, rfl⟩
  have hd : d ∈ ds := by
    rw [← List.mem_reverse, hdu]
    simp
  have hdd := hdig d hd
  show List.isPrefixOf (S ("sc")).reverse s.reverse = false
  rw [hs, List.reverse_append, hdu]
  have hrev : (S ("sc")).reverse = 'c' :: 's' :: [] := rfl
  rw [hrev]
  show (('c' == d) && List.isPrefixOf ['s'] (u ++ pre.reverse)) = false
  have hcd : ('c' == d) = false := by
    have hc := (digit_ne_marker hdd).2.2.1
    simp [Ne.symm hc]
  simp [hcd]

/-- Characterization of the per-position test behind `scVariantSearch`. -/
theorem scVariantOk_iff (s : Str) (k : Nat) :
    scVariantOk s k = true ↔
      ∃ d t, s.drop k = '-' :: 's' :: 'c' :: '-' :: d :: t ∧
        d.isDigit = true := by
  unfold scVariantOk
  constructor
  · intro h
    match hdrop : s.drop k with
    | [] => rw [hdrop] at h; simp at h
    | [a] => rw [hdrop] at h; simp at h
    | [a, b] => rw [hdrop] at h; simp at h
    | [a, b, c] => rw [hdrop] at h; simp at h
    | [a, b, c, d] => rw [hdrop] at h; simp at h
    | a :: b :: c :: d :: e :: t =>
      rw [hdrop] at h
      simp only [Bool.and_eq_true, decide_eq_true_eq] at h
      obtain ⟨⟨⟨⟨ha, hb⟩, hc⟩, hd⟩, he⟩ := h
      subst ha; subst hb; subst hc; subst hd
      exact ⟨e, t, rfl, he⟩
  · rintro ⟨d, t, hdrop, hd⟩
    rw [hdrop]
    simp [hd]

/-- Above the true marker position the test always fails: in
`p ++ "-sc-" ++ ds` with `ds` all digits, no later position carries
`-sc-<digit>`. -/
theorem scVariantOk_false_above (p ds : Str)
    (hdig : ∀ c ∈ ds, c.isDigit = true) :
    ∀ k, p.length < k →
      scVariantOk (p ++ (S ("-sc-") ++ ds)) k = false := by
  intro k hk
  set s := p ++ (S ("-sc-") ++ ds) with hs
  rw [← Bool.not_eq_true]
  intro hok
  obtain ⟨d, t, hdrop, hd⟩ := (scVariantOk_iff s k).mp hok
  obtain ⟨m, hm⟩ : ∃ m, k = p.length + (m + 1) := by
    refine ⟨k - p.length - 1, ?_⟩
    omega
  rw [hs, hm, List.drop_append] at hdrop
  have hsc : S ("-sc-") ++ ds = '-' :: 's' :: 'c' :: '-' :: ds := rfl
  rw [hsc] at hdrop
  match m with
  | 0 => simp at hdrop
  | 1 => simp at hdrop
  | 2 =>
    simp only [List.drop_succ_cons, List.drop_zero] at hdrop
    have hds : ds = 's' :: 'c' :: '-' :: d :: t := by
      injection hdrop
    have : 's' ∈ ds := by rw [hds]; simp
    have := hdig 's' this
    simp at this
  | n + 3 =>
    simp only [List.drop_succ_cons] at hdrop
    have hmm : '-' ∈ ds.drop n := by rw [hdrop]; simp
    have : '-' ∈ ds := List.mem_of_mem_drop hmm
    have := hdig '-' this
    simp at this

/-- Descent of `scVariantGo` through failing positions. -/
theorem scVariantGo_descend (s : Str) (base : Nat)
    (hfail : ∀ k, base < k → scVariantOk s k = false) :
    ∀ i, scVariantGo s (base + i) = scVariantGo s base := by
  intro i
  induction i with
  | zero => rfl
  | succ i ih =>
    have : base + (i + 1) = (base + i) + 1 := by omega
    rw [this, scVariantGo, hfail ((base + i) + 1) (by omega)]
    simp only [Bool.false_eq_true, if_neg, ite_false]
    exact ih

/-- At a succeeding position `scVariantGo` returns the prefix through the
marker. -/
theorem scVariantGo_at_ok (s : Str) (base : Nat)
    (hok : scVariantOk s base = true) :
    scVariantGo s base = some (s.take (base + 3)) := by
  match base with
  | 0 => rw [scVariantGo, if_pos hok]
  | b + 1 => rw [scVariantGo, if_pos hok]

/-- The search of `r"^.*-sc(?=-\d+)"` on `p ++ "-sc-" ++ ds` (no newline in
`p`, `ds` nonempty digits) finds exactly the prefix through the marker. -/
theorem scVariantSearch_trailing_variant (p ds : Str)
    (hp : ∀ c ∈ p, c ≠ '\n') (hne : ds ≠ [])
    (hdig : ∀ c ∈ ds, c.isDigit = true) :
    scVariantSearch (p ++ (S ("-sc-") ++ ds)) = some (p ++ S ("-sc")) := by
  set s := p ++ (S ("-sc-") ++ ds) with hs
  obtain ⟨d, t, hdt⟩ : ∃ d t, ds = d :: t := by
    cases ds with
    | nil => exact absurd rfl hne
    | cons d t => exact ⟨d, t, rfl⟩
  have hall : ∀ c ∈ s, (c ≠ '\n' : Bool) = true := by
    intro c hc
    rw [hs] at hc
    simp only [List.mem_append] at hc
    rcases hc with hc | hc
    · simp [hp c hc]
    · rcases hc with hc | hc
      · rw [show S ("-sc-") = ['-', 's', 'c', '-'] from rfl] at hc
        fin_cases hc <;> decide
      · have hn := (digit_ne_marker (hdig c hc)).2.2.2
        simp [hn]
  have htake : s.takeWhile (fun c => c ≠ '\n') = s :=
    List.takeWhile_eq_self_iff.mpr hall
  have hok : scVariantOk s p.length = true := by
    rw [scVariantOk_iff]
    refine ⟨d, t, ?_, hdig d (by rw [hdt]; simp)⟩
    rw [hs, List.drop_left, hdt]
    rfl
  have hlen : s.length = p.length + (4 + ds.length) := by
    rw [hs]
    simp [S]
    omega
  rw [scVariantSearch, htake, hlen,
    scVariantGo_descend s p.length
      (scVariantOk_false_above p ds hdig) (4 + ds.length),
    scVariantGo_at_ok s p.length hok]
  congr 1
  rw [hs]
  have : p.length + 3 = p.length + 3 := rfl
  rw [List.take_append 3]
  rfl

/-- C9 (amended): `serialize` for `AdministrativeMatter` returns
`"Administrative Matter No. <formatted-id>"` where, with `small` the
lower-cased id: if `small` ends with `sc`, the whole of `small` is uppercased;
else if `small` has a trailing `-sc-<digits>` variant suffix and the part
before the marker contains no newline (the detection regex's dot cannot cross
one), `small` is truncated at the `sc` marker and that prefix is uppercased;
and ids whose `small` does not contain `sc` are uppercased as-is. -/
theorem am_serialize_amended :
    (∀ idx : Str, List.isSuffixOf (S ("sc")) (pyLower idx) = true →
      serialize .AdministrativeMatter idx =
        .title (S ("Administrative Matter No. ") ++ pyUpper (pyLower idx))) ∧
    (∀ idx p ds : Str, pyLower idx = p ++ (S ("-sc-") ++ ds) → ds ≠ [] →
      (∀ c ∈ ds, c.isDigit = true) → (∀ c ∈ p, c ≠ '\n') →
      serialize .AdministrativeMatter idx =
        .title (S ("Administrative Matter No. ") ++ pyUpper (p ++ S ("-sc")))) ∧
    (∀ idx : Str, pyContains (S ("sc")) (pyLower idx) = false →
      serialize .AdministrativeMatter idx =
        .title (S ("Administrative Matter No. ") ++ pyUpper (pyLower idx))) := by
  have ham : uncamel .AdministrativeMatter ++ S (" No. ") =
      S ("Administrative Matter No. ") := by decide
  refine ⟨?_, ?_, ?_⟩
  · intro idx hsfx
    have hcont : pyContains (S ("sc")) (pyLower idx) = true := by
      have hpre := hsfx
      show pyContains (S ("sc")) (pyLower idx) = true
      obtain ⟨tl, htl⟩ : ∃ tl, pyLower idx = tl ++ S ("sc") := by
        have h2 : List.isPrefixOf (S ("sc")).reverse (pyLower idx).reverse =
            true := hpre
        obtain ⟨u, hu⟩ : ∃ u, (pyLower idx).reverse =
            (S ("sc")).reverse ++ u := by
          revert h2
          generalize (pyLower idx).reverse = rv
          generalize (S ("sc")).reverse = cv
          induction cv generalizing rv with
          | nil => intro _; exact ⟨rv, rfl⟩
          | cons a as ih =>
            intro h2
            cases rv with
            | nil => simp [List.isPrefixOf] at h2
            | cons b bs =>
              simp only [List.isPrefixOf, Bool.and_eq_true, beq_iff_eq] at h2
              obtain ⟨u, hu⟩ := ih bs h2.2
              exact ⟨u, by rw [hu, h2.1]; rfl⟩
        refine ⟨u.reverse, ?_⟩
        have := congrArg List.reverse hu
        simpa using this
      rw [htl]
      have := pyContains_append_left tl (S ("sc")) []
      simpa using this
    simp only [serialize]
    rw [if_pos (by simp [hcont]), if_pos (by simp [hsfx]), ham]
  · intro idx p ds hsplit hne hdig hp
    have hcont : pyContains (S ("sc")) (pyLower idx) = true := by
      rw [hsplit]
      have : p ++ (S ("-sc-") ++ ds) =
          (p ++ ['-']) ++ (S ("sc") ++ ('-' :: ds)) := by
        simp [S]
      rw [this]
      exact pyContains_append_left _ _ _
    have hsfx : List.isSuffixOf (S ("sc")) (pyLower idx) = false :=
      endswith_sc_false_of_digit_last (p ++ S ("-sc-"))
        (by rw [hsplit]; simp) hne hdig
    have hsearch := scVariantSearch_trailing_variant p ds hp hne hdig
    simp only [serialize]
    rw [if_pos (by simp [hcont]), if_neg (by simp [hsfx]), ← hsplit] at *
    rw [hsplit, hsearch, ham]
  · intro idx hnc
    simp only [serialize]
    rw [if_neg (by simp [hnc]), ham]

/-- C9 witness: the truncation conjunct applied at the concrete variant id
`00-5-03-sc-1` (prefix `00-5-03`, digits `1`). -/
theorem am_serialize_amended_witness :
    serialize .AdministrativeMatter (S ("00-5-03-sc-1")) =
      .title (S ("Administrative Matter No. ") ++
        pyUpper (S ("00-5-03") ++ S ("-sc"))) :=
  am_serialize_amended.2.1 (S ("00-5-03-sc-1")) (S ("00-5-03")) (S ("1"))
    (by decide) (by decide) (by decide) (by decide)

end StatutePatterns
